import Mathlib

/-!
# Verification of the round-based lottery pallet

Shallow embedding of `src/.snippets/code/basic-substrate/lottery-example-calls.rs`:
a Substrate pallet with two dispatchables, `buy_ticket` (entry) and `award_prize`
(round settlement).  Accounts are natural numbers; the ledger, authorization and
randomness subsystems are external collaborators and are modelled at their
interface, parameterized by an environment `Env`.  Dispatch is transactional:
a dispatchable that returns an error leaves no visible state change (FRAME's
transactional storage layer); a Rust panic (`%` by zero, `unwrap` on `None`)
is modelled as the distinguished outcome `fatal`.
-/

namespace Lottery

/-- Persisted state owned by the pallet: the optional bounded participants
registry (`Participants` storage), the nonce counter, and the ledger balances
(the ledger is external, but its balances are part of the shared state the
pallet mutates through transfers). -/
structure LState where
  participants : Option (List Nat)
  nonce : Nat
  balances : Nat → Nat

/-- Events deposited by the pallet (`Event` enum in the source). -/
inductive Event where
  | TicketBought (who : Nat)
  | PrizeAwarded (winner : Nat)
  | ThereAreNoParticipants
deriving DecidableEq

/-- Dispatch errors: the pallet's `Error` enum, plus `BadOrigin` from the
origin checks and `TransferError` for an error propagated from
`T::Currency::transfer` by the `?` operator. -/
inductive Err where
  | BadOrigin
  | NotEnoughCurrency
  | AccountAlreadyParticipating
  | CanNotAddParticipant
  | TransferError
deriving DecidableEq

/-- Call origins: a signed account, root, or an unsigned origin. -/
inductive Origin where
  | signed (who : Nat)
  | root
  | unsigned

/-- Outcome of dispatching a call under transactional semantics:
`ok s evs` commits the new state and deposits events `evs`;
`err e` rolls every mutation of the call back (the caller keeps the pre-call
state and no events are deposited); `fatal` is a Rust panic aborting the
transaction's execution environment. -/
inductive Outcome where
  | ok (s : LState) (evs : List Event)
  | err (e : Err)
  | fatal

/-- Moves `amt` from `src` to `dst` in a balances map (only meaningful when
`amt ≤ bal src` and `src ≠ dst`, which the transfer guards ensure). -/
def move (bal : Nat → Nat) (src dst amt : Nat) : Nat → Nat :=
  fun a => if a = src then bal a - amt else if a = dst then bal a + amt else bal a

/-- Environment: configuration constants and the external collaborators.
`transfer ka bal src dst amt` models `T::Currency::transfer` with
`ExistenceRequirement::KeepAlive` (`ka = true`) or `AllowDeath` (`ka = false`);
`none` is a ledger-side rejection.  `randomness n` models decoding the leading
bytes of `T::MyRandomness::random(&n)` as a `u32` (the decoded value is reduced
mod `2^32` at use sites). -/
structure Env where
  ticketCost : Nat
  capacity : Nat
  palletAccount : Nat
  randomness : Nat → Nat
  transfer : Bool → (Nat → Nat) → Nat → Nat → Nat → Option (Nat → Nat)

/-- Interface contract of the ledger collaborator: a successful transfer
debited exactly `amt` from `src` (which held at least `amt`) and credited it
to `dst`.  Failure conditions are left unconstrained — the ledger is external
and may reject a transfer for its own reasons (minimum-balance rules, etc.). -/
def Env.transferSound (env : Env) : Prop :=
  ∀ ka bal src dst amt bal', env.transfer ka bal src dst amt = some bal' →
    amt ≤ bal src ∧ src ≠ dst ∧ bal' = move bal src dst amt

/-- `BoundedVec::try_push`: appends iff the vector is below its bound. -/
def tryPush (cap : Nat) (l : List Nat) (x : Nat) : Option (List Nat) :=
  if l.length < cap then some (l ++ [x]) else none

/-- Dispatchable `buy_ticket` (call_index 0), translated line by line:
ensure signed origin; ensure `free_balance(buyer) ≥ TicketCost`; if a registry
exists, ensure the buyer is not already in it; push the buyer (creating the
registry if absent), failing with `CanNotAddParticipant` when the bound is
reached; transfer the ticket cost to the pallet account with `KeepAlive`;
deposit `TicketBought`. -/
def buy_ticket (env : Env) (origin : Origin) (s : LState) : Outcome :=
  match origin with
  | .signed buyer =>
    if env.ticketCost ≤ s.balances buyer then
      if (match s.participants with
          | some participants => participants.contains buyer
          | none => false) then
        .err .AccountAlreadyParticipating
      else
        match (match s.participants with
               | some participants => tryPush env.capacity participants buyer
               | none => tryPush env.capacity [] buyer) with
        | some participants =>
          let s1 : LState := { s with participants := some participants }
          match env.transfer true s1.balances buyer env.palletAccount env.ticketCost with
          | some bal' => .ok { s1 with balances := bal' } [.TicketBought buyer]
          | none => .err .TransferError
        | none => .err .CanNotAddParticipant
    else .err .NotEnoughCurrency
  | _ => .err .BadOrigin

/-- Dispatchable `award_prize` (call_index 1), translated line by line:
ensure root; if a registry exists, read-and-increment the nonce (the helper
`get_and_increment_nonce` is not in the snippet; modelled from the spec:
it returns the pre-increment value and persists the incremented one), draw
randomness for the pre-increment nonce and decode a `u32`, compute
`winner_index = random_number % participants.len()` (a Rust panic — `fatal` —
when the length is zero), `unwrap` the indexed participant (`fatal` on `None`),
transfer the pallet account's whole balance to the winner with `AllowDeath`,
kill the registry and deposit `PrizeAwarded`; with no registry, deposit
`ThereAreNoParticipants`. -/
def award_prize (env : Env) (origin : Origin) (s : LState) : Outcome :=
  match origin with
  | .root =>
    match s.participants with
    | some participants =>
      let nonce := s.nonce
      let s1 : LState := { s with nonce := s.nonce + 1 }
      let random_number := env.randomness nonce % 2 ^ 32
      if participants.length = 0 then .fatal
      else
        match participants.get? (random_number % participants.length) with
        | some winner =>
          let prize := s1.balances env.palletAccount
          match env.transfer false s1.balances env.palletAccount winner prize with
          | some bal' =>
            .ok { s1 with balances := bal', participants := none }
              [.PrizeAwarded winner]
          | none => .err .TransferError
        | none => .fatal
    | none => .ok s [.ThereAreNoParticipants]
  | _ => .err .BadOrigin

/-- Number of participants registered in a state (0 when the registry is absent). -/
def regSize (s : LState) : Nat :=
  (s.participants.getD []).length

/-- State after a dispatch: the new state on `ok`, the pre-call state `pre` on
`err` (transactional rollback). -/
def Outcome.stateAfter (o : Outcome) (pre : LState) : LState :=
  match o with
  | .ok s _ => s
  | _ => pre

/-- Events actually deposited by a dispatch: rolled back (empty) unless `ok`. -/
def Outcome.eventsOf : Outcome → List Event :=
  fun o => match o with
  | .ok _ evs => evs
  | _ => []

/-- A reference ledger implementation used to instantiate the collaborator on
concrete runs: a transfer succeeds iff the source covers the amount, the
accounts differ, and (for `KeepAlive`) the source keeps at least the
existential deposit `ed` afterwards. -/
def stdTransfer (ed : Nat) (ka : Bool) (bal : Nat → Nat) (src dst amt : Nat) :
    Option (Nat → Nat) :=
  if amt ≤ bal src ∧ src ≠ dst ∧ (ka → amt + ed ≤ bal src) then
    some (move bal src dst amt)
  else none

/-- A concrete environment: entry fee 10, capacity 3, pallet account 0,
a fixed pseudo-random stream, existential deposit 1. -/
def env0 : Env :=
  { ticketCost := 10
    capacity := 3
    palletAccount := 0
    randomness := fun n => 7 * n + 5
    transfer := stdTransfer 1 }

/-- An environment whose ledger rejects every `AllowDeath` transfer, used to
exercise the payout-failure path. -/
def envNoPayout : Env :=
  { env0 with transfer := fun ka bal src dst amt =>
      if ka then stdTransfer 1 true bal src dst amt else none }

theorem stdTransfer_sound (ed : Nat) : ∀ ka bal src dst amt bal',
    stdTransfer ed ka bal src dst amt = some bal' →
    amt ≤ bal src ∧ src ≠ dst ∧ bal' = move bal src dst amt := by
  intro ka bal src dst amt bal' h
  unfold stdTransfer at h
  split at h
  · rename_i hc
    exact ⟨hc.1, hc.2.1, (Option.some_inj.mp h).symm⟩
  · exact absurd h (by simp)

theorem env0_sound : env0.transferSound := by
  intro ka bal src dst amt bal' h
  exact stdTransfer_sound 1 ka bal src dst amt bal' h

theorem envNoPayout_sound : envNoPayout.transferSound := by
  intro ka bal src dst amt bal' h
  simp only [envNoPayout, env0] at h
  cases ka with
  | true => exact stdTransfer_sound 1 true bal src dst amt bal' h
  | false => exact absurd h (by simp)

theorem move_src (bal : Nat → Nat) (src dst amt : Nat) :
    move bal src dst amt src = bal src - amt := by
  simp [move]

theorem move_dst (bal : Nat → Nat) (src dst amt : Nat) (h : dst ≠ src) :
    move bal src dst amt dst = bal dst + amt := by
  simp [move, h]

theorem move_other (bal : Nat → Nat) (src dst amt a : Nat)
    (h1 : a ≠ src) (h2 : a ≠ dst) : move bal src dst amt a = bal a := by
  simp [move, h1, h2]

/-- Inversion of a successful `buy_ticket`: recovers every check that was
passed and the exact shape of the committed state. -/
theorem buy_ticket_ok_inv (env : Env) (o : Origin) (s s' : LState)
    (evs : List Event) (h : buy_ticket env o s = .ok s' evs) :
    ∃ buyer, o = .signed buyer ∧ evs = [.TicketBought buyer] ∧
      env.ticketCost ≤ s.balances buyer ∧
      (∀ ps, s.participants = some ps → buyer ∉ ps) ∧
      (s.participants.getD []).length < env.capacity ∧
      s'.participants = some (s.participants.getD [] ++ [buyer]) ∧
      s'.nonce = s.nonce ∧
      env.transfer true s.balances buyer env.palletAccount env.ticketCost
        = some s'.balances := by
  cases o with
  | signed buyer =>
    refine ⟨buyer, rfl, ?_⟩
    simp only [buy_ticket] at h
    split at h
    · rename_i hbal
      split at h
      · exact absurd h (by simp)
      · rename_i hdup
        split at h
        · rename_i ps' hpush
          split at h
          · rename_i bal' htr
            injection h with h1 h2
            subst h1
            subst h2
            have hget : tryPush env.capacity (s.participants.getD []) buyer
                = some ps' := by
              cases hp : s.participants with
              | some ps => rw [hp] at hpush; simpa [hp] using hpush
              | none => rw [hp] at hpush; simpa [hp] using hpush
            have hlen : (s.participants.getD []).length < env.capacity := by
              by_contra hc
              simp [tryPush, hc] at hget
            have hps' : ps' = s.participants.getD [] ++ [buyer] := by
              simp [tryPush, hlen] at hget
              exact hget.symm
            refine ⟨rfl, hbal, ?_, hlen, by simp [hps'], rfl, htr⟩
            intro ps hp hmem
            rw [hp] at hdup
            simp at hdup
            exact hdup hmem
          · exact absurd h (by simp)
        · exact absurd h (by simp)
    · exact absurd h (by simp)
  | root => exact absurd h (by simp [buy_ticket])
  | unsigned => exact absurd h (by simp [buy_ticket])

/-- Inversion of a successful `award_prize`: either the registry was absent
(pure notification, state untouched) or a winner was paid the whole escrow,
the registry was killed and the nonce stepped. -/
theorem award_prize_ok_inv (env : Env) (o : Origin) (s s' : LState)
    (evs : List Event) (h : award_prize env o s = .ok s' evs) :
    o = .root ∧
    ((s.participants = none ∧ s' = s ∧ evs = [.ThereAreNoParticipants]) ∨
     (∃ ps winner, s.participants = some ps ∧ ps ≠ [] ∧
        ps.get? (env.randomness s.nonce % 2 ^ 32 % ps.length) = some winner ∧
        evs = [.PrizeAwarded winner] ∧
        s'.participants = none ∧ s'.nonce = s.nonce + 1 ∧
        env.transfer false s.balances env.palletAccount winner
          (s.balances env.palletAccount) = some s'.balances)) := by
  cases o with
  | signed a => exact absurd h (by simp [award_prize])
  | unsigned => exact absurd h (by simp [award_prize])
  | root =>
    refine ⟨rfl, ?_⟩
    simp only [award_prize] at h
    split at h
    · rename_i ps hps
      split at h
      · exact absurd h (by simp)
      · rename_i hlen
        split at h
        · rename_i winner hget
          split at h
          · rename_i bal' htr
            injection h with h1 h2
            subst h1
            subst h2
            exact Or.inr ⟨ps, winner, hps, by simpa using hlen, hget, rfl,
              rfl, rfl, htr⟩
          · exact absurd h (by simp)
        · exact absurd h (by simp)
    · rename_i hps
      injection h with h1 h2
      subst h1
      subst h2
      exact Or.inl ⟨hps, rfl, rfl⟩

/-- With the registry absent, root settlement is the no-participants no-op. -/
theorem award_prize_none (env : Env) (s : LState) (h : s.participants = none) :
    award_prize env .root s = .ok s [.ThereAreNoParticipants] := by
  simp only [award_prize, h]

/-- Unfolding of the winning settlement path, given the winner lookup and a
successful payout transfer. -/
theorem award_prize_some_eq (env : Env) (s : LState) (ps : List Nat)
    (w : Nat) (bal' : Nat → Nat) (hps : s.participants = some ps)
    (hne : ¬ ps.length = 0)
    (hw : ps.get? (env.randomness s.nonce % 2 ^ 32 % ps.length) = some w)
    (htr : env.transfer false s.balances env.palletAccount w
        (s.balances env.palletAccount) = some bal') :
    award_prize env .root s
      = .ok ⟨none, s.nonce + 1, bal'⟩ [.PrizeAwarded w] := by
  unfold award_prize
  rw [hps]
  dsimp only
  rw [if_neg hne, hw]
  dsimp only
  rw [htr]

/-- Unfolding of the settlement path when the payout transfer is rejected. -/
theorem award_prize_transfer_fail_eq (env : Env) (s : LState) (ps : List Nat)
    (w : Nat) (hps : s.participants = some ps) (hne : ¬ ps.length = 0)
    (hw : ps.get? (env.randomness s.nonce % 2 ^ 32 % ps.length) = some w)
    (htr : env.transfer false s.balances env.palletAccount w
        (s.balances env.palletAccount) = none) :
    award_prize env .root s = .err .TransferError := by
  unfold award_prize
  rw [hps]
  dsimp only
  rw [if_neg hne, hw]
  dsimp only
  rw [htr]

/-- Settlement never panics from a state whose registry, when present, is
non-empty: the modulo bound puts the winner index in range, so the `unwrap`
succeeds, and the modulo divisor is non-zero. -/
theorem award_prize_not_fatal (env : Env) (o : Origin) (s : LState)
    (h : ∀ ps, s.participants = some ps → ps ≠ []) :
    award_prize env o s ≠ .fatal := by
  cases o with
  | signed a => simp [award_prize]
  | unsigned => simp [award_prize]
  | root =>
    cases hp : s.participants with
    | none => simp [award_prize_none env s hp]
    | some ps =>
      have hne : ps ≠ [] := h ps hp
      have hlen : 0 < ps.length := List.length_pos.mpr hne
      have hidx : env.randomness s.nonce % 2 ^ 32 % ps.length < ps.length :=
        Nat.mod_lt _ hlen
      cases htr : env.transfer false s.balances env.palletAccount
          (ps.get ⟨env.randomness s.nonce % 2 ^ 32 % ps.length, hidx⟩)
          (s.balances env.palletAccount) with
      | some bal' =>
        rw [award_prize_some_eq env s ps _ bal' hp (by omega)
          (List.get?_eq_get hidx) htr]
        simp
      | none =>
        rw [award_prize_transfer_fail_eq env s ps _ hp (by omega)
          (List.get?_eq_get hidx) htr]
        simp

/-!
## Claim theorems
-/

/-- C5: for every caller that is not the privileged root authority and every
state, `close_round` (`award_prize`) fails with an authorization error
(`BadOrigin`); under the transactional dispatch semantics the pre-call state
is kept unchanged (registry, nonce, balances) and no notification is
deposited. -/
theorem close_round_unauthorized (env : Env) (o : Origin) (s : LState)
    (h : o ≠ .root) :
    award_prize env o s = .err .BadOrigin ∧
    (award_prize env o s).stateAfter s = s ∧
    (award_prize env o s).eventsOf = [] := by
  cases o with
  | root => exact absurd rfl h
  | signed a => exact ⟨rfl, rfl, rfl⟩
  | unsigned => exact ⟨rfl, rfl, rfl⟩

def sPlain : LState := ⟨some [1, 2], 3, fun _ => 20⟩

theorem close_round_unauthorized_witness :
    award_prize env0 (.signed 1) sPlain = .err .BadOrigin ∧
    (award_prize env0 (.signed 1) sPlain).stateAfter sPlain = sPlain ∧
    (award_prize env0 (.signed 1) sPlain).eventsOf = [] :=
  close_round_unauthorized env0 (.signed 1) sPlain (by intro h; cases h)

/-- C8: an `enter` (`buy_ticket`) by an account whose ledger balance is below
the entry fee fails with `NotEnoughCurrency`; the registry and the escrow
balance are kept unchanged and no `TicketBought` notification is deposited. -/
theorem enter_insufficient_balance (env : Env) (u : Nat) (s : LState)
    (h : s.balances u < env.ticketCost) :
    buy_ticket env (.signed u) s = .err .NotEnoughCurrency ∧
    (buy_ticket env (.signed u) s).stateAfter s = s ∧
    (buy_ticket env (.signed u) s).eventsOf = [] := by
  have h1 : buy_ticket env (.signed u) s = .err .NotEnoughCurrency := by
    unfold buy_ticket
    dsimp only
    rw [if_neg (show ¬ env.ticketCost ≤ s.balances u by omega)]
  exact ⟨h1, by rw [h1]; rfl, by rw [h1]; rfl⟩

def sPoor : LState := ⟨none, 0, fun _ => 5⟩

theorem enter_insufficient_balance_witness :
    buy_ticket env0 (.signed 1) sPoor = .err .NotEnoughCurrency ∧
    (buy_ticket env0 (.signed 1) sPoor).stateAfter sPoor = sPoor ∧
    (buy_ticket env0 (.signed 1) sPoor).eventsOf = [] :=
  enter_insufficient_balance env0 1 sPoor (by decide)

def sEmptyReg : LState := ⟨some [], 0, fun _ => 0⟩

/-- C2 counterexample: in the state whose registry is present but empty,
root settlement does not emit `NoParticipants` and succeed — it takes the
`Some` branch and panics (`random_number % 0` in Rust), modelled as the
`fatal` outcome. -/
theorem close_round_empty_registry_fatal :
    sEmptyReg.participants = some [] ∧
    award_prize env0 .root sEmptyReg = .fatal :=
  ⟨rfl, rfl⟩

/-- C2 (amended): for every `close_round` by root in a state where the
registry is ABSENT, the operation succeeds as a no-op: it deposits exactly
the `ThereAreNoParticipants` notification and leaves the registry, the nonce
and all balances unchanged.  (A present-but-empty registry instead panics;
that state is unreachable.) -/
theorem close_round_absent_registry_noop (env : Env) (s : LState)
    (h : s.participants = none) :
    award_prize env .root s = .ok s [.ThereAreNoParticipants] ∧
    (award_prize env .root s).stateAfter s = s ∧
    (award_prize env .root s).eventsOf = [.ThereAreNoParticipants] := by
  have h1 := award_prize_none env s h
  exact ⟨h1, by rw [h1]; rfl, by rw [h1]; rfl⟩

def sAbsent : LState := ⟨none, 4, fun _ => 7⟩

theorem close_round_absent_registry_noop_witness :
    award_prize env0 .root sAbsent = .ok sAbsent [.ThereAreNoParticipants] ∧
    (award_prize env0 .root sAbsent).stateAfter sAbsent = sAbsent ∧
    (award_prize env0 .root sAbsent).eventsOf = [.ThereAreNoParticipants] :=
  close_round_absent_registry_noop env0 sAbsent rfl

def sNoReg : LState := ⟨none, 0, fun _ => 0⟩

/-- C3 counterexample: a settlement attempt by root with the registry absent
succeeds (emitting `ThereAreNoParticipants`) but leaves the nonce at 0 —
it is not incremented, because the source only increments the nonce on the
branch that actually requests randomness. -/
theorem nonce_unchanged_on_empty_settlement :
    award_prize env0 .root sNoReg = .ok sNoReg [.ThereAreNoParticipants] ∧
    ((award_prize env0 .root sNoReg).stateAfter sNoReg).nonce = 0 :=
  ⟨rfl, rfl⟩

/-- C3 (amended): the nonce is incremented by exactly one on every settlement
attempt by root that finds an existing registry and commits; a settlement that
finds the registry absent leaves the whole state — nonce included — unchanged;
`buy_ticket` never changes the nonce; and the nonce is monotonically
non-decreasing (never reset) across every committed operation. -/
theorem nonce_discipline :
    (∀ env s s' evs ps, award_prize env .root s = .ok s' evs →
        s.participants = some ps → s'.nonce = s.nonce + 1) ∧
    (∀ env s, s.participants = none →
        award_prize env .root s = .ok s [.ThereAreNoParticipants]) ∧
    (∀ env o s s' evs, buy_ticket env o s = .ok s' evs →
        s'.nonce = s.nonce) ∧
    (∀ env o s s' evs, award_prize env o s = .ok s' evs →
        s.nonce ≤ s'.nonce) := by
  refine ⟨?_, ?_, ?_, ?_⟩
  · intro env s s' evs ps h hps
    rcases (award_prize_ok_inv env .root s s' evs h).2 with
      ⟨hnone, _, _⟩ | ⟨qs, w, _, _, _, _, _, hn, _⟩
    · rw [hps] at hnone; cases hnone
    · exact hn
  · intro env s h
    exact award_prize_none env s h
  · intro env o s s' evs h
    obtain ⟨buyer, _, _, _, _, _, _, hn, _⟩ :=
      buy_ticket_ok_inv env o s s' evs h
    exact hn
  · intro env o s s' evs h
    rcases (award_prize_ok_inv env o s s' evs h).2 with
      ⟨_, hss, _⟩ | ⟨qs, w, _, _, _, _, _, hn, _⟩
    · rw [hss]
    · omega

def s3w : LState := ⟨some [1, 2, 3], 0, fun _ => 30⟩

def s3w' : LState := ⟨none, 1, move (fun _ => 30) 0 3 30⟩

theorem nonce_discipline_witness : s3w'.nonce = s3w.nonce + 1 :=
  nonce_discipline.1 env0 s3w s3w' [.PrizeAwarded 3] [1, 2, 3] rfl rfl

/-- C9: during settlement with a non-empty registry of size `n`, the winner
index `random_number % n` always lies in `[0, n)`, so the participant lookup
always succeeds and the settlement never panics (the `unwrap` never fails),
for every 32-bit random number. -/
theorem winner_index_in_range (env : Env) (s : LState) (ps : List Nat)
    (hps : s.participants = some ps) (hne : ps ≠ []) :
    env.randomness s.nonce % 2 ^ 32 % ps.length < ps.length ∧
    award_prize env .root s ≠ .fatal := by
  refine ⟨Nat.mod_lt _ (List.length_pos.mpr hne), ?_⟩
  apply award_prize_not_fatal
  intro qs hqs
  rw [hps] at hqs
  injection hqs with hqs
  rw [← hqs]
  exact hne

theorem winner_index_in_range_witness :
    env0.randomness s3w.nonce % 2 ^ 32 % ([1, 2, 3] : List Nat).length
      < ([1, 2, 3] : List Nat).length ∧
    award_prize env0 .root s3w ≠ .fatal :=
  winner_index_in_range env0 s3w [1, 2, 3] rfl (by decide)

def sDup : LState := ⟨some [7], 0, fun a => if a = 7 then 5 else 0⟩

/-- C7 counterexample: account 7 is already registered but its balance (5)
has fallen below the entry fee (10), so its second `enter` fails with
`NotEnoughCurrency` — the balance check precedes the duplicate check — not
with the duplicate-registration error the claim requires. -/
theorem enter_duplicate_error_mismatch :
    sDup.participants = some [7] ∧ (7 ∈ ([7] : List Nat)) ∧
    buy_ticket env0 (.signed 7) sDup = .err .NotEnoughCurrency ∧
    buy_ticket env0 (.signed 7) sDup ≠ .err .AccountAlreadyParticipating := by
  refine ⟨rfl, by decide, rfl, ?_⟩
  intro h
  rw [show buy_ticket env0 (.signed 7) sDup = .err .NotEnoughCurrency
    from rfl] at h
  injection h with h'
  cases h'

/-- C7 (amended): if an account already present in the registry calls `enter`
again in the same round while its balance still covers the entry fee, the
call fails with the duplicate-registration error and the registry, the escrow
balance and the caller's balance are unchanged.  (If the balance has dropped
below the fee, the call still fails with no state change, but with
`NotEnoughCurrency` instead.) -/
theorem enter_duplicate_rejected (env : Env) (u : Nat) (s : LState)
    (ps : List Nat) (hps : s.participants = some ps) (hmem : u ∈ ps)
    (hbal : env.ticketCost ≤ s.balances u) :
    buy_ticket env (.signed u) s = .err .AccountAlreadyParticipating ∧
    (buy_ticket env (.signed u) s).stateAfter s = s ∧
    (buy_ticket env (.signed u) s).eventsOf = [] := by
  have h1 : buy_ticket env (.signed u) s
      = .err .AccountAlreadyParticipating := by
    unfold buy_ticket
    dsimp only
    rw [if_pos hbal, hps]
    dsimp only
    rw [if_pos (by simpa using hmem)]
  exact ⟨h1, by rw [h1]; rfl, by rw [h1]; rfl⟩

def sRich : LState := ⟨some [7], 0, fun _ => 50⟩

theorem enter_duplicate_rejected_witness :
    buy_ticket env0 (.signed 7) sRich = .err .AccountAlreadyParticipating ∧
    (buy_ticket env0 (.signed 7) sRich).stateAfter sRich = sRich ∧
    (buy_ticket env0 (.signed 7) sRich).eventsOf = [] :=
  enter_duplicate_rejected env0 7 sRich [7] rfl (by decide) (by decide)

/-- C4: if, during settlement with a non-empty registry, the payout transfer
from the escrow account to the winner is rejected by the ledger, the whole
dispatch aborts with `TransferError` and — by the transactional dispatch
semantics — no visible state change survives: the registry is not cleared,
no `PrizeAwarded` notification is deposited, and the nonce increment
performed earlier in the same call is rolled back with the rest. -/
theorem close_round_payout_failure_aborts (env : Env) (s : LState)
    (ps : List Nat) (w : Nat) (hps : s.participants = some ps)
    (hne : ps ≠ [])
    (hw : ps.get? (env.randomness s.nonce % 2 ^ 32 % ps.length) = some w)
    (htr : env.transfer false s.balances env.palletAccount w
        (s.balances env.palletAccount) = none) :
    award_prize env .root s = .err .TransferError ∧
    (award_prize env .root s).stateAfter s = s ∧
    (award_prize env .root s).eventsOf = [] := by
  have h1 := award_prize_transfer_fail_eq env s ps w hps
    (by simpa using hne) hw htr
  exact ⟨h1, by rw [h1]; rfl, by rw [h1]; rfl⟩

theorem close_round_payout_failure_aborts_witness :
    award_prize envNoPayout .root s3w = .err .TransferError ∧
    (award_prize envNoPayout .root s3w).stateAfter s3w = s3w ∧
    (award_prize envNoPayout .root s3w).eventsOf = [] :=
  close_round_payout_failure_aborts envNoPayout s3w [1, 2, 3] 3 rfl
    (by decide) (by decide) rfl

/-- Dispatches a sequence of `buy_ticket` calls, returning the final state and
the number of calls that succeeded (failed calls leave the state unchanged by
the transactional semantics). -/
def runEnters (env : Env) : List Origin → LState → LState × Nat
  | [], s => (s, 0)
  | o :: os, s =>
    match buy_ticket env o s with
    | .ok s' _ => ((runEnters env os s').1, (runEnters env os s').2 + 1)
    | _ => runEnters env os s

/-- A successful entry grows the registry by exactly one. -/
theorem buy_ticket_regSize (env : Env) (o : Origin) (s s' : LState)
    (evs : List Event) (h : buy_ticket env o s = .ok s' evs) :
    regSize s' = regSize s + 1 := by
  obtain ⟨buyer, _, _, _, _, _, hpart, _, _⟩ :=
    buy_ticket_ok_inv env o s s' evs h
  simp [regSize, hpart]

/-- Over any call sequence, the registry grows by exactly the number of
successful entries. -/
theorem runEnters_regSize (env : Env) (os : List Origin) (s : LState) :
    regSize (runEnters env os s).1 = regSize s + (runEnters env os s).2 := by
  induction os generalizing s with
  | nil => rfl
  | cons o os ih =>
    show regSize (match buy_ticket env o s with
      | .ok s' _ => ((runEnters env os s').1, (runEnters env os s').2 + 1)
      | _ => runEnters env os s).1 = _
    cases hb : buy_ticket env o s with
    | ok s' evs =>
      have hstep := buy_ticket_regSize env o s s' evs hb
      simp only [runEnters, hb]
      rw [ih s', hstep]
      omega
    | err e => simp only [runEnters, hb]; rw [ih s]
    | fatal => simp only [runEnters, hb]; rw [ih s]

/-- C6: starting with the registry absent, after any sequence of `enter`
calls the registry size equals the number of successful entries (each success
adds exactly one); and once the registry size equals the capacity `N`, any
further `enter` by a solvent, not-yet-registered account fails with the
capacity error `CanNotAddParticipant`, leaving the state unchanged. -/
theorem registry_size_tracks_entries :
    (∀ env os s, s.participants = none →
        regSize (runEnters env os s).1 = (runEnters env os s).2) ∧
    (∀ env u s ps, s.participants = some ps → ps.length = env.capacity →
        env.ticketCost ≤ s.balances u → u ∉ ps →
        buy_ticket env (.signed u) s = .err .CanNotAddParticipant ∧
        (buy_ticket env (.signed u) s).stateAfter s = s ∧
        (buy_ticket env (.signed u) s).eventsOf = []) := by
  constructor
  · intro env os s h
    have := runEnters_regSize env os s
    simp [regSize, h] at this
    simpa using this
  · intro env u s ps hps hcap hbal hmem
    have h1 : buy_ticket env (.signed u) s
        = .err .CanNotAddParticipant := by
      unfold buy_ticket
      dsimp only
      rw [if_pos hbal, hps]
      dsimp only
      rw [if_neg (by simpa using hmem)]
      rw [show tryPush env.capacity ps u = none by
        simp [tryPush, hcap]]
    exact ⟨h1, by rw [h1]; rfl, by rw [h1]; rfl⟩

def sStart : LState := ⟨none, 0, fun _ => 20⟩

def sFull : LState := ⟨some [1, 2, 3], 0, fun _ => 50⟩

theorem registry_size_tracks_entries_witness :
    (regSize (runEnters env0 [.signed 1, .signed 2] sStart).1
      = (runEnters env0 [.signed 1, .signed 2] sStart).2) ∧
    (buy_ticket env0 (.signed 4) sFull = .err .CanNotAddParticipant ∧
     (buy_ticket env0 (.signed 4) sFull).stateAfter sFull = sFull ∧
     (buy_ticket env0 (.signed 4) sFull).eventsOf = []) :=
  ⟨registry_size_tracks_entries.1 env0 [.signed 1, .signed 2] sStart rfl,
   registry_size_tracks_entries.2 env0 4 sFull [1, 2, 3] rfl rfl
     (by decide) (by decide)⟩

/-- States reachable from the initial state (registry absent, nonce 0, any
ledger balances) through committed `buy_ticket` / `award_prize` dispatches.
Failed dispatches roll back to the pre-call state, so they do not add states;
the environment may differ from step to step. -/
inductive Reachable : LState → Prop where
  | init (bal : Nat → Nat) : Reachable ⟨none, 0, bal⟩
  | buy (env : Env) (o : Origin) (s s' : LState) (evs : List Event) :
      Reachable s → buy_ticket env o s = .ok s' evs → Reachable s'
  | award (env : Env) (o : Origin) (s s' : LState) (evs : List Event) :
      Reachable s → award_prize env o s = .ok s' evs → Reachable s'

/-- C10: in every reachable state, a present registry is non-empty — the
registry is never present-but-empty — so settlement can never reach the
empty-sequence case (modulo by zero / failing `unwrap`): `award_prize` never
panics from a reachable state. -/
theorem registry_never_empty (s : LState) (h : Reachable s) :
    (∀ ps, s.participants = some ps → ps ≠ []) ∧
    (∀ env o, award_prize env o s ≠ .fatal) := by
  have hmain : ∀ ps, s.participants = some ps → ps ≠ [] := by
    induction h with
    | init bal => intro ps hps; cases hps
    | buy env o s s' evs _ hb ih =>
      obtain ⟨buyer, _, _, _, _, _, hpart, _, _⟩ :=
        buy_ticket_ok_inv env o s s' evs hb
      intro ps hps
      rw [hpart] at hps
      injection hps with hps
      rw [← hps]
      simp
    | award env o s s' evs _ ha ih =>
      rcases (award_prize_ok_inv env o s s' evs ha).2 with
        ⟨_, hss, _⟩ | ⟨qs, w, _, _, _, _, hnone, _, _⟩
      · rw [hss]; exact ih
      · intro ps hps; rw [hnone] at hps; cases hps
  exact ⟨hmain, fun env o => award_prize_not_fatal env o s hmain⟩

def balW : Nat → Nat := fun _ => 20

def sAfterOne : LState := ⟨some [1], 0, move balW 1 0 10⟩

theorem registry_never_empty_witness :
    (∀ ps, sAfterOne.participants = some ps → ps ≠ []) ∧
    (∀ env o, award_prize env o sAfterOne ≠ .fatal) :=
  registry_never_empty sAfterOne
    (Reachable.buy env0 (.signed 1) ⟨none, 0, balW⟩ sAfterOne
      [.TicketBought 1] (Reachable.init balW) rfl)

/-- The participant `award_prize` pays from state `s`: the registry entry at
index `random_number % len`, as the source computes it (fallback 0 is never
used when the registry is non-empty, by the modulo bound). -/
def winnerOf (env : Env) (s : LState) : Nat :=
  (s.participants.getD []).getD
    (env.randomness s.nonce % 2 ^ 32 % (s.participants.getD []).length) 0

/-- C1: end-to-end settlement.  From a fresh round (registry absent, escrow
empty) in which accounts `a`, `b`, `c` each successfully enter with entry fee
10, the escrow reaches 30; a settlement by root whose payout transfer the
ledger accepts selects exactly the participant at index
`random_number % 3`, who is one of `a`, `b`, `c`; that winner's balance
grows by exactly 30, the escrow drops to 0, the registry becomes absent, and
the `PrizeAwarded` notification carries the winner; an immediately following
settlement emits `ThereAreNoParticipants`. -/
theorem end_to_end_settlement (env : Env) (a b c : Nat)
    (s0 s1 s2 s3 : LState) (ev1 ev2 ev3 : List Event)
    (hsound : env.transferSound)
    (hfee : env.ticketCost = 10)
    (hP0 : s0.balances env.palletAccount = 0)
    (hreg0 : s0.participants = none)
    (hA : buy_ticket env (.signed a) s0 = .ok s1 ev1)
    (hB : buy_ticket env (.signed b) s1 = .ok s2 ev2)
    (hC : buy_ticket env (.signed c) s2 = .ok s3 ev3)
    (hpay : (env.transfer false s3.balances env.palletAccount
        (winnerOf env s3) (s3.balances env.palletAccount)).isSome = true) :
    s3.participants = some [a, b, c] ∧
    s3.balances env.palletAccount = 30 ∧
    winnerOf env s3 ∈ [a, b, c] ∧
    ∃ s4, award_prize env .root s3
        = .ok s4 [.PrizeAwarded (winnerOf env s3)] ∧
      s4.balances (winnerOf env s3) = s3.balances (winnerOf env s3) + 30 ∧
      s4.balances env.palletAccount = 0 ∧
      s4.participants = none ∧
      award_prize env .root s4 = .ok s4 [.ThereAreNoParticipants] := by
  obtain ⟨a', ha', _, _, _, _, hpartA, _, htrA⟩ :=
    buy_ticket_ok_inv env _ s0 s1 ev1 hA
  injection ha' with ha'
  subst ha'
  obtain ⟨b', hb', _, _, _, _, hpartB, _, htrB⟩ :=
    buy_ticket_ok_inv env _ s1 s2 ev2 hB
  injection hb' with hb'
  subst hb'
  obtain ⟨c', hc', _, _, _, _, hpartC, _, htrC⟩ :=
    buy_ticket_ok_inv env _ s2 s3 ev3 hC
  injection hc' with hc'
  subst hc'
  obtain ⟨_, hneA, hbal1⟩ := hsound _ _ _ _ _ _ htrA
  obtain ⟨_, hneB, hbal2⟩ := hsound _ _ _ _ _ _ htrB
  obtain ⟨_, hneC, hbal3⟩ := hsound _ _ _ _ _ _ htrC
  have hp1 : s1.participants = some [a] := by
    rw [hpartA, hreg0]; rfl
  have hp2 : s2.participants = some [a, b] := by
    rw [hpartB, hp1]; rfl
  have hp3 : s3.participants = some [a, b, c] := by
    rw [hpartC, hp2]; rfl
  have hb1P : s1.balances env.palletAccount = 10 := by
    rw [hbal1, move_dst _ _ _ _ (Ne.symm hneA), hP0, hfee]
  have hb2P : s2.balances env.palletAccount = 20 := by
    rw [hbal2, move_dst _ _ _ _ (Ne.symm hneB), hb1P, hfee]
  have hb3P : s3.balances env.palletAccount = 30 := by
    rw [hbal3, move_dst _ _ _ _ (Ne.symm hneC), hb2P, hfee]
  have hidx : env.randomness s3.nonce % 2 ^ 32 % ([a, b, c] : List Nat).length
      < ([a, b, c] : List Nat).length :=
    Nat.mod_lt _ (by simp)
  have hwget : ([a, b, c] : List Nat).get?
      (env.randomness s3.nonce % 2 ^ 32 % ([a, b, c] : List Nat).length)
      = some (([a, b, c] : List Nat).get ⟨_, hidx⟩) :=
    List.get?_eq_get hidx
  have hwof : winnerOf env s3 = ([a, b, c] : List Nat).get ⟨_, hidx⟩ := by
    unfold winnerOf
    rw [hp3]
    dsimp only [Option.getD_some]
    unfold List.getD
    rw [hwget]
    rfl
  have hwmem : winnerOf env s3 ∈ [a, b, c] := by
    rw [hwof]; exact List.get_mem _ _ _
  obtain ⟨bal4, htr4⟩ := Option.isSome_iff_exists.mp hpay
  obtain ⟨_, hneW, hbal4⟩ := hsound _ _ _ _ _ _ htr4
  have htr4' : env.transfer false s3.balances env.palletAccount
      (([a, b, c] : List Nat).get ⟨_, hidx⟩)
      (s3.balances env.palletAccount) = some bal4 := by
    rw [← hwof]; exact htr4
  have haward := award_prize_some_eq env s3 [a, b, c]
    (([a, b, c] : List Nat).get ⟨_, hidx⟩) bal4 hp3 (by simp) hwget htr4'
  refine ⟨hp3, hb3P, hwmem, ⟨none, s3.nonce + 1, bal4⟩, ?_, ?_, ?_, rfl, ?_⟩
  · rw [hwof]; exact haward
  · show bal4 (winnerOf env s3) = _
    rw [hbal4, move_dst _ _ _ _ (Ne.symm hneW), hb3P]
  · show bal4 env.palletAccount = 0
    rw [hbal4, move_src]
    exact Nat.sub_self _
  · exact award_prize_none env _ rfl

def c1bal : Nat → Nat := fun x => if x = 0 then 0 else 20

def c1s0 : LState := ⟨none, 0, c1bal⟩

def c1s1 : LState := ⟨some [1], 0, move c1bal 1 0 10⟩

def c1s2 : LState := ⟨some [1, 2], 0, move (move c1bal 1 0 10) 2 0 10⟩

def c1s3 : LState :=
  ⟨some [1, 2, 3], 0, move (move (move c1bal 1 0 10) 2 0 10) 3 0 10⟩

theorem end_to_end_settlement_witness :
    c1s3.participants = some [1, 2, 3] ∧
    c1s3.balances env0.palletAccount = 30 ∧
    winnerOf env0 c1s3 ∈ [1, 2, 3] ∧
    ∃ s4, award_prize env0 .root c1s3
        = .ok s4 [.PrizeAwarded (winnerOf env0 c1s3)] ∧
      s4.balances (winnerOf env0 c1s3)
        = c1s3.balances (winnerOf env0 c1s3) + 30 ∧
      s4.balances env0.palletAccount = 0 ∧
      s4.participants = none ∧
      award_prize env0 .root s4 = .ok s4 [.ThereAreNoParticipants] :=
  end_to_end_settlement env0 1 2 3 c1s0 c1s1 c1s2 c1s3
    [.TicketBought 1] [.TicketBought 2] [.TicketBought 3]
    env0_sound rfl rfl rfl rfl rfl rfl rfl

end Lottery
